import Mathlib

/-!
Shallow embedding of the X-Road Metrics anonymizer
(anonymizer_module/opmon_anonymizer/anonymizer.py).

Python dicts are modelled as insertion-ordered association lists with
unique keys, compiled regex patterns as abstract match functions
String → Bool, and fallible code as Option (none = the Python code
raised an exception).
-/

/-- Python values stored in record fields. -/
inductive Value where
  | str (s : String)
  | int (n : Int)
  | null
deriving DecidableEq

/-- Python str() on the values we model; None prints as "None". -/
def Value.pyStr : Value → String
  | Value.str s => s
  | Value.int n => toString n
  | Value.null => "None"

/-- A Python dict with string keys, as an insertion-ordered association list. -/
abbrev Record := List (String × Value)

/-- Dict lookup: the first binding of the key (keys are unique). -/
def alistLookup {α : Type} : List (String × α) → String → Option α
  | [], _ => none
  | p :: rest, k => if p.1 = k then some p.2 else alistLookup rest k

/-- Dict assignment d[k] = v: overwrite the existing binding in place,
otherwise append a new binding at the end (Python dict semantics). -/
def alistInsert {α : Type} : List (String × α) → String → α → List (String × α)
  | [], k, v => [(k, v)]
  | p :: rest, k, v => if p.1 = k then (k, v) :: rest else p :: alistInsert rest k v

/-- One hiding/substitution condition: a feature name and the compiled
regex, abstracted to its match-on-string behaviour. -/
abbrev Condition := String × (String → Bool)

/-- AnonymizationJob._record_matches_conditions (anonymizer.py lines 263-277):
the for/else loop breaks (returns False) at the first condition whose field
is absent or whose pattern does not match str(value); it returns True only
when the loop completes. -/
def record_matches_conditions (record : Record) (conditions : List Condition) : Bool :=
  conditions.all fun c =>
    match alistLookup record c.1 with
    | some v => c.2 v.pyStr
    | none => false

/-- AnonymizationJob._should_be_hidden (lines 249-261): a record is hidden
iff it matches the condition list of at least one hiding rule. -/
def should_be_hidden (hidingRules : List (List Condition)) (record : Record) : Bool :=
  hidingRules.any fun conditions => record_matches_conditions record conditions

/-- One compiled substitution rule (Anonymizer._get_substitution_rules):
conditions plus the (feature, value) substitutes. -/
structure SubstitutionRule where
  conditions : List Condition
  substitutes : List (String × Value)

/-- The inner loop of _substitute: assign each substitute value in order. -/
def applySubstitutes (subs : List (String × Value)) (r : Record) : Record :=
  subs.foldl (fun acc p => alistInsert acc p.1 p.2) r

/-- AnonymizationJob._substitute (lines 279-292): iterate the substitution
rules in declaration order; each rule whose conditions match the current
(already mutated) record overwrites its listed fields. -/
def substitute (rules : List SubstitutionRule) (record : Record) : Record :=
  rules.foldl
    (fun r rule =>
      if record_matches_conditions r rule.conditions then applySubstitutes rule.substitutes r
      else r)
    record

/-- The value assigned last to field f by a substitute list, if any. -/
def lastValueFor (subs : List (String × Value)) (f : String) : Option Value :=
  alistLookup subs.reverse f

/-- A value of the field-translations dict: either a plain new name
(one-segment entries) or a nested per-agent table (client/producer). -/
inductive TransVal where
  | s (v : String)
  | table (t : List (String × String))
deriving DecidableEq

/-- The field-translations dict built by Anonymizer._get_field_translations. -/
abbrev TransDict := List (String × TransVal)

/-- The two agent roles of a dual record. -/
inductive Agent where
  | client
  | producer
deriving DecidableEq

/-- The dict key used for an agent. -/
def agentKey : Agent → String
  | Agent.client => "client"
  | Agent.producer => "producer"

/-- The per-agent field-value mask sets built by _get_field_value_masks;
a Python set is modelled as a duplicate-free list. -/
structure Masks where
  client : List String
  producer : List String
deriving DecidableEq

/-- masks[agent]. -/
def masksGet (m : Masks) : Agent → List String
  | Agent.client => m.client
  | Agent.producer => m.producer

/-- A dual record: optional client and producer sub-dicts plus the shared
top-level fields (all keys other than client and producer). -/
structure DualRecord where
  client : Option Record
  producer : Option Record
  shared : Record
deriving DecidableEq

/-- dual_record[agent]. -/
def dualGet (dual : DualRecord) : Agent → Option Record
  | Agent.client => dual.client
  | Agent.producer => dual.producer

/-- The dict comprehension of _get_agent_record (line 316): translate every
key of the agent sub-dict through the agent table; a missing entry is a
KeyError (none). -/
def translateSub (t : List (String × String)) (sub : Record) : Option Record :=
  sub.foldlM
    (fun acc p =>
      match alistLookup t p.1 with
      | some nk => some (alistInsert acc nk p.2)
      | none => none)
    []

/-- The shared-field loop of _get_agent_record (lines 320-322): every
top-level key other than client/producer is translated through the
top-level translations dict; a missing or non-string entry raises (none). -/
def addShared (ft : TransDict) (shared : Record) (r : Record) : Option Record :=
  shared.foldlM
    (fun acc p =>
      if p.1 = "client" ∨ p.1 = "producer" then some acc
      else
        match alistLookup ft p.1 with
        | some (TransVal.s nm) => some (alistInsert acc nm p.2)
        | _ => none)
    r

/-- The masking loop of _get_agent_record (lines 327-328): set every masked
field to None. -/
def applyMasks (masks : List String) (r : Record) : Record :=
  masks.foldl (fun acc f => alistInsert acc f Value.null) r

/-- AnonymizationJob._get_agent_record (lines 313-330): translate the agent
sub-dict, add the translated shared fields, then null out the masked fields. -/
def get_agent_record (ft : TransDict) (masks : Masks) (agent : Agent) (dual : DualRecord) :
    Option Record :=
  match alistLookup ft (agentKey agent) with
  | some (TransVal.table t) =>
    match translateSub t ((dualGet dual agent).getD []) with
    | some base =>
      match addShared ft dual.shared base with
      | some withShared => some (applyMasks (masksGet masks agent) withShared)
      | none => none
    | none => none
  | _ => none

/-- AnonymizationJob._get_records (lines 294-311): the client record first
(when the client key is present), then the producer record; any failure
propagates. -/
def get_records (ft : TransDict) (masks : Masks) (dual : DualRecord) : Option (List Record) :=
  Option.bind
    (match dual.client with
     | some _ => Option.map (fun r => [r]) (get_agent_record ft masks Agent.client dual)
     | none => some [])
    (fun recs =>
      match dual.producer with
      | some _ => Option.map (fun r => recs ++ [r]) (get_agent_record ft masks Agent.producer dual)
      | none => some recs)

/-- Does the first list lead the second (element-wise equal on its length)? -/
def leadMatch : List Char → List Char → Bool
  | [], _ => true
  | _ :: _, [] => false
  | a :: as, b :: bs => a = b && leadMatch as bs

/-- Scanner for pySplit: cur holds the current chunk reversed; a chunk is
cut as soon as it ends with the separator (leftmost-first, non-overlapping,
exactly Python str.split with a non-empty separator). -/
def splitEndsGo (sepRev : List Char) (sepLen : Nat) : List Char → List Char → List (List Char)
  | [], cur => [cur.reverse]
  | c :: rest, cur =>
    if leadMatch sepRev (c :: cur) then
      (List.drop sepLen (c :: cur)).reverse :: splitEndsGo sepRev sepLen rest []
    else
      splitEndsGo sepRev sepLen rest (c :: cur)

/-- Python str.split(sep) for a non-empty separator. -/
def pySplit (sep : List Char) (s : List Char) : List String :=
  (splitEndsGo sep.reverse sep.length s []).map (fun cs => String.mk cs)

/-- The whitespace test of Python str.strip. -/
def isSpace (c : Char) : Bool :=
  c = ' ' || c = '\t' || c = '\n' || c = '\r'

/-- Python str.strip(): drop leading and trailing whitespace. -/
def pyStrip (s : List Char) : List Char :=
  ((s.dropWhile isSpace).reverse.dropWhile isSpace).reverse

/-- line.strip().split(" -> ") of _get_field_translations line 162. -/
def arrowSplit (line : String) : List String :=
  pySplit [' ', '-', '>', ' '] (pyStrip line.data)

/-- original_name.split(".") of _get_field_translations line 163. -/
def dotSplit (s : String) : List String :=
  pySplit ['.'] s.data

/-- The initial translations dict of _get_field_translations (line 158). -/
def initTranslations : TransDict :=
  [("client", TransVal.table []), ("producer", TransVal.table [])]

/-- One iteration of the _get_field_translations loop (lines 161-169):
a line that does not split into exactly one "original -> new" pair raises
(ValueError on unpacking); a one-segment original is assigned at top level;
a two-segment original is assigned inside the named sub-table (raising if
that top-level entry is absent or not a table); any longer original falls
through both branches and is silently ignored. -/
def parseTransLine (ft : TransDict) (line : String) : Option TransDict :=
  match arrowSplit line with
  | [orig, newName] =>
    match dotSplit orig with
    | [k] => some (alistInsert ft k (TransVal.s newName))
    | [k1, k2] =>
      match alistLookup ft k1 with
      | some (TransVal.table t) => some (alistInsert ft k1 (TransVal.table (alistInsert t k2 newName)))
      | _ => none
    | _ => some ft
  | _ => none

/-- Anonymizer._get_field_translations (lines 156-178) over the lines of the
field-translations file. -/
def parseTranslations (lines : List String) : Option TransDict :=
  lines.foldlM parseTransLine initTranslations

/-- Python set.add on the list model of a set. -/
def setAdd (l : List String) (x : String) : List String :=
  if x ∈ l then l else l ++ [x]

/-- One iteration of the _get_field_value_masks loop (lines 184-187): an
entry with an agent key masks the *other* agent ("producer" masks the
client output, anything else masks the producer output); entries without
an agent key are skipped. -/
def maskStep (m : Masks) (p : String × Option String) : Masks :=
  match p.2 with
  | some agent =>
    if agent = "producer" then { m with client := setAdd m.client p.1 }
    else { m with producer := setAdd m.producer p.1 }
  | none => m

/-- Anonymizer._get_field_value_masks (lines 180-196), with each field-data
entry reduced to the value of its optional agent key. -/
def get_field_value_masks (fields : List (String × Option String)) : Masks :=
  fields.foldl maskStep ⟨[], []⟩

/-- The compiled configuration handed to an AnonymizationJob. -/
structure JobConfig where
  hidingRules : List (List Condition)
  substitutionRules : List SubstitutionRule
  transformers : List (Record → Record)
  fieldTranslations : TransDict
  fieldValueMasks : Masks

/-- The transformer loop of AnonymizationJob.run (lines 234-235). -/
def applyTransformerChain (ts : List (Record → Record)) (r : Record) : Record :=
  ts.foldl (fun acc t => t acc) r

/-- The per-record part of AnonymizationJob.run (lines 227-237): hidden
records are skipped; the rest are substituted, transformed and collected
in order. -/
def processRecords (cfg : JobConfig) (recs : List Record) : List Record :=
  recs.foldl
    (fun acc record =>
      if should_be_hidden cfg.hidingRules record then acc
      else acc ++ [applyTransformerChain cfg.transformers (substitute cfg.substitutionRules record)])
    []

/-- Processing of one dual record inside AnonymizationJob.run. -/
def processDual (cfg : JobConfig) (dual : DualRecord) : Option (List Record) :=
  Option.map (processRecords cfg) (get_records cfg.fieldTranslations cfg.fieldValueMasks dual)

/-- AnonymizationJob.run (lines 219-247) up to the sink write: the list of
processed records collected over the whole batch; none when any record of
the batch raises. -/
def processBatch (cfg : JobConfig) (duals : List DualRecord) : Option (List Record) :=
  duals.foldl
    (fun acc dual => acc.bind fun outs => Option.map (fun o => outs ++ o) (processDual cfg dual))
    (some [])

/-- One step of the batch loop, additionally threading the input dual
records through untouched (the Python loop only reads them). -/
def processThreadStep (cfg : JobConfig) (s : Option (List Record) × List DualRecord)
    (dual : DualRecord) : Option (List Record) × List DualRecord :=
  (s.1.bind fun outs => Option.map (fun o => outs ++ o) (processDual cfg dual), s.2 ++ [dual])

/-- processBatch instrumented with the pass-through of its input list. -/
def processBatchThreaded (cfg : JobConfig) (duals : List DualRecord) :
    Option (List Record) × List DualRecord :=
  duals.foldl (processThreadStep cfg) (some [], [])

/-- The mutable state of the Anonymizer.anonymize loop (lines 44-92):
the reader cursor, the record buffer, the captured batch start cursor,
the last successful batch timestamp, the committed-record count, and a
ghost log of the committed full batches as (size, end cursor) pairs. -/
structure DriverSt where
  cursor : Int
  buffer : List DualRecord
  batchStart : Option Int
  lastSuccess : Int
  count : Nat
  committed : List (Nat × Int)

/-- How one run of Anonymizer.anonymize ends. -/
inductive Outcome where
  | finished (n : Nat)
  | aborted (n : Nat)
  | raisedFinal
deriving DecidableEq

/-- The observable result of one run: the outcome, the reader cursor at the
end (the checkpoint), the ghost log of committed full batches, and whether
update_last_processed_timestamp was called. -/
structure DriverResult where
  outcome : Outcome
  checkpoint : Int
  committed : List (Nat × Int)
  resetDone : Bool
deriving DecidableEq

/-- The log-limit test of line 55: processed_count >= log_limit. -/
def limitReached (logLimit : Option Nat) (count : Nat) : Bool :=
  match logLimit with
  | some lim => decide (lim ≤ count)
  | none => false

/-- Lines 88-92 of anonymize: run the remaining undersized batch through
the job with no try/except around it; a failure there propagates out of
anonymize (raisedFinal), with no checkpoint reset and no returned count. -/
def anonEpilogue (jobOk : List DualRecord → Bool) (st : DriverSt) : DriverResult :=
  match st.buffer with
  | [] =>
    { outcome := Outcome.finished st.count, checkpoint := st.cursor,
      committed := st.committed, resetDone := false }
  | b :: bs =>
    if jobOk (b :: bs) then
      { outcome := Outcome.finished (st.count + (b :: bs).length), checkpoint := st.cursor,
        committed := st.committed, resetDone := false }
    else
      { outcome := Outcome.raisedFinal, checkpoint := st.cursor,
        committed := st.committed, resetDone := false }

/-- The record loop of Anonymizer.anonymize (lines 53-92). Each stream
element is a dual record paired with the reader cursor value after it is
consumed. jobOk abstracts whether AnonymizationJob.run succeeds on a batch. -/
def anonLoop (jobOk : List DualRecord → Bool) (bufSize : Nat) (logLimit : Option Nat) :
    List (DualRecord × Int) → DriverSt → DriverResult
  | [], st => anonEpilogue jobOk st
  | (rec, ts) :: rest, st =>
    if limitReached logLimit st.count then
      anonEpilogue jobOk { st with cursor := ts }
    else if bufSize ≤ (st.buffer ++ [rec]).length then
      if jobOk (st.buffer ++ [rec]) then
        anonLoop jobOk bufSize logLimit rest
          { cursor := ts, buffer := [], batchStart := none, lastSuccess := ts,
            count := st.count + (st.buffer ++ [rec]).length,
            committed := st.committed ++ [((st.buffer ++ [rec]).length, ts)] }
      else
        { outcome := Outcome.aborted st.count, checkpoint := st.lastSuccess,
          committed := st.committed, resetDone := true }
    else
      anonLoop jobOk bufSize logLimit rest
        { st with cursor := ts, buffer := st.buffer ++ [rec],
                  batchStart := some (st.batchStart.getD ts) }

/-- Anonymizer.anonymize: the loop started from the reader's initial
last_processed_timestamp. -/
def anonymize (jobOk : List DualRecord → Bool) (bufSize : Nat) (logLimit : Option Nat)
    (initCk : Int) (stream : List (DualRecord × Int)) : DriverResult :=
  anonLoop jobOk bufSize logLimit stream
    { cursor := initCk, buffer := [], batchStart := none, lastSuccess := initCk,
      count := 0, committed := [] }

/-- The end cursor of the last committed batch in a ghost log, or the
initial checkpoint when nothing was committed. -/
def lastCommittedEnd (init : Int) (log : List (Nat × Int)) : Int :=
  match log.getLast? with
  | some p => p.2
  | none => init

/-- The total number of records in the committed batches of a ghost log. -/
def committedTotal (log : List (Nat × Int)) : Nat :=
  (log.map Prod.fst).sum

/-- The compiled translations of the spec scenario: client.a -> fieldA,
producer.a -> fieldA, ts -> ts. -/
def exampleFT : TransDict :=
  [("client", TransVal.table [("a", "fieldA")]),
   ("producer", TransVal.table [("a", "fieldA")]),
   ("ts", TransVal.s "ts")]

/-- The dual record of the spec scenario. -/
def exampleDual : DualRecord :=
  ⟨some [("a", Value.str "1")], some [("a", Value.str "2")], [("ts", Value.int 100)]⟩

/-- A dual record with no agent parts, carrying one shared field. -/
def mkDual (k : Int) : DualRecord :=
  ⟨none, none, [("k", Value.int k)]⟩

/-- A job that raises exactly on the batches containing a given record. -/
def jobRejecting (bad : DualRecord) (b : List DualRecord) : Bool :=
  !(b.contains bad)

/-- A concrete hiding/substitution condition set used in witnesses. -/
def wConds : List Condition :=
  [("f", fun s => s == "x")]

/-- A concrete record missing the field of wConds. -/
def wRec : Record :=
  [("g", Value.str "x")]

/-- An unconditional substitution rule writing "first" to field f. -/
def wRule1 : SubstitutionRule :=
  ⟨[], [("f", Value.str "first")]⟩

/-- An unconditional substitution rule writing "second" to field f. -/
def wRule2 : SubstitutionRule :=
  ⟨[], [("f", Value.str "second")]⟩

/-! ### Association-list lemmas -/

theorem alistLookup_insert_self {α : Type} (l : List (String × α)) (k : String) (v : α) :
    alistLookup (alistInsert l k v) k = some v := by
  induction l with
  | nil => simp [alistInsert, alistLookup]
  | cons p rest ih =>
    by_cases h : p.1 = k
    · simp [alistInsert, h, alistLookup]
    · simp [alistInsert, h, alistLookup, ih]

theorem alistLookup_insert_ne {α : Type} (l : List (String × α)) (k k2 : String) (v : α)
    (h : k2 ≠ k) : alistLookup (alistInsert l k v) k2 = alistLookup l k2 := by
  induction l with
  | nil => simp [alistInsert, alistLookup, Ne.symm h]
  | cons p rest ih =>
    by_cases hp : p.1 = k
    · simp [alistInsert, hp, alistLookup, Ne.symm h]
    · simp [alistInsert, hp, alistLookup, ih]

theorem alistLookup_append_some {α : Type} (l1 l2 : List (String × α)) (k : String) (v : α)
    (h : alistLookup l1 k = some v) : alistLookup (l1 ++ l2) k = some v := by
  induction l1 with
  | nil => simp [alistLookup] at h
  | cons p rest ih =>
    by_cases hp : p.1 = k
    · simp [alistLookup, hp] at h ⊢; exact h
    · simp [alistLookup, hp] at h ⊢; exact ih h

theorem alistLookup_append_none {α : Type} (l1 l2 : List (String × α)) (k : String)
    (h : alistLookup l1 k = none) : alistLookup (l1 ++ l2) k = alistLookup l2 k := by
  induction l1 with
  | nil => simp
  | cons p rest ih =>
    by_cases hp : p.1 = k
    · simp [alistLookup, hp] at h
    · simp [alistLookup, hp] at h ⊢; exact ih h

/-! ### Substitution lemmas -/

theorem applySubstitutes_lookup_none (subs : List (String × Value)) (r : Record) (f : String)
    (h : lastValueFor subs f = none) :
    alistLookup (applySubstitutes subs r) f = alistLookup r f := by
  induction subs generalizing r with
  | nil => rfl
  | cons p rest ih =>
    rw [lastValueFor, List.reverse_cons] at h
    rcases hv : alistLookup rest.reverse f with _ | v2
    · have h2 := alistLookup_append_none _ [p] f hv
      rw [h2] at h
      simp [alistLookup] at h
      rw [show applySubstitutes (p :: rest) r = applySubstitutes rest (alistInsert r p.1 p.2) from rfl]
      rw [ih _ hv]
      exact alistLookup_insert_ne _ _ _ _ (fun hh => h hh.symm)
    · rw [alistLookup_append_some _ [p] f v2 hv] at h
      exact absurd h (by simp)

theorem applySubstitutes_lookup_last (subs : List (String × Value)) (r : Record) (f : String)
    (v : Value) (h : lastValueFor subs f = some v) :
    alistLookup (applySubstitutes subs r) f = some v := by
  induction subs generalizing r with
  | nil => simp [lastValueFor, alistLookup] at h
  | cons p rest ih =>
    rw [lastValueFor, List.reverse_cons] at h
    rcases hv : alistLookup rest.reverse f with _ | v2
    · rw [alistLookup_append_none _ [p] f hv] at h
      simp [alistLookup] at h
      obtain ⟨hf, hv2⟩ := h
      rw [show applySubstitutes (p :: rest) r = applySubstitutes rest (alistInsert r p.1 p.2) from rfl]
      rw [applySubstitutes_lookup_none rest _ f hv]
      rw [hf, hv2]
      exact alistLookup_insert_self r f v
    · rw [alistLookup_append_some _ [p] f v2 hv] at h
      injection h with h2
      subst h2
      exact ih _ hv

/-! ### Masking lemmas -/

theorem applyMasks_lookup_not_mem (masks : List String) (r : Record) (f : String)
    (h : f ∉ masks) : alistLookup (applyMasks masks r) f = alistLookup r f := by
  induction masks generalizing r with
  | nil => rfl
  | cons m rest ih =>
    rw [show applyMasks (m :: rest) r = applyMasks rest (alistInsert r m Value.null) from rfl]
    have hm : f ≠ m := fun hh => h (hh ▸ List.mem_cons_self m rest)
    rw [ih _ (fun hf => h (List.mem_cons_of_mem m hf))]
    exact alistLookup_insert_ne _ _ _ _ hm

theorem applyMasks_lookup_mem (masks : List String) (r : Record) (f : String)
    (h : f ∈ masks) : alistLookup (applyMasks masks r) f = some Value.null := by
  induction masks generalizing r with
  | nil => simp at h
  | cons m rest ih =>
    rw [show applyMasks (m :: rest) r = applyMasks rest (alistInsert r m Value.null) from rfl]
    by_cases hf : f ∈ rest
    · exact ih _ hf
    · have hfm : f = m := by
        rcases List.mem_cons.mp h with h1 | h2
        · exact h1
        · exact absurd h2 hf
      rw [applyMasks_lookup_not_mem rest _ f hf, hfm]
      exact alistLookup_insert_self _ _ _

/-! ### Rule-matching characterization -/

theorem record_matches_iff (record : Record) (conds : List Condition) :
    record_matches_conditions record conds = true ↔
      ∀ c ∈ conds, ∃ v, alistLookup record c.1 = some v ∧ c.2 v.pyStr = true := by
  rw [record_matches_conditions, List.all_eq_true]
  constructor
  · intro h c hc
    have hcc := h c hc
    rcases hv : alistLookup record c.1 with _ | v
    · rw [hv] at hcc; simp at hcc
    · rw [hv] at hcc; exact ⟨v, rfl, hcc⟩
  · intro h c hc
    obtain ⟨v, hv, hp⟩ := h c hc
    rw [hv]
    exact hp

/-! ### Driver epilogue lemmas -/

theorem anonEpilogue_not_aborted (jobOk : List DualRecord → Bool) (st : DriverSt) (n : Nat) :
    (anonEpilogue jobOk st).outcome ≠ Outcome.aborted n := by
  cases hb : st.buffer with
  | nil => simp [anonEpilogue, hb]
  | cons b bs =>
    by_cases hj : jobOk (b :: bs) <;> simp [anonEpilogue, hb, hj]

theorem anonEpilogue_resetDone (jobOk : List DualRecord → Bool) (st : DriverSt) :
    (anonEpilogue jobOk st).resetDone = false := by
  cases hb : st.buffer with
  | nil => simp [anonEpilogue, hb]
  | cons b bs =>
    by_cases hj : jobOk (b :: bs) <;> simp [anonEpilogue, hb, hj]

theorem anonEpilogue_raisedFinal (jobOk : List DualRecord → Bool) (st : DriverSt)
    (h : (anonEpilogue jobOk st).outcome = Outcome.raisedFinal) :
    ∃ buf, buf ≠ [] ∧ jobOk buf = false := by
  cases hb : st.buffer with
  | nil => simp [anonEpilogue, hb] at h
  | cons b bs =>
    by_cases hj : jobOk (b :: bs)
    · simp [anonEpilogue, hb, hj] at h
    · exact ⟨b :: bs, by simp, by simpa using hj⟩

theorem anonEpilogue_count_le (jobOk : List DualRecord → Bool) (st : DriverSt) (n : Nat)
    (h : (anonEpilogue jobOk st).outcome = Outcome.finished n
         ∨ (anonEpilogue jobOk st).outcome = Outcome.aborted n) :
    n ≤ st.count + st.buffer.length := by
  cases hb : st.buffer with
  | nil =>
    rcases h with h | h <;> simp [anonEpilogue, hb] at h
    omega
  | cons b bs =>
    by_cases hj : jobOk (b :: bs) <;> rcases h with h | h <;> simp [anonEpilogue, hb, hj] at h
    all_goals simp [hb]
    all_goals omega

/-! ### Driver loop invariants -/

theorem anonLoop_aborted_spec (jobOk : List DualRecord → Bool) (bufSize : Nat)
    (logLimit : Option Nat) (init : Int) :
    ∀ (stream : List (DualRecord × Int)) (st : DriverSt),
      st.lastSuccess = lastCommittedEnd init st.committed →
      st.count = committedTotal st.committed →
      ∀ n, (anonLoop jobOk bufSize logLimit stream st).outcome = Outcome.aborted n →
        (anonLoop jobOk bufSize logLimit stream st).checkpoint
            = lastCommittedEnd init (anonLoop jobOk bufSize logLimit stream st).committed
        ∧ n = committedTotal (anonLoop jobOk bufSize logLimit stream st).committed
        ∧ (anonLoop jobOk bufSize logLimit stream st).resetDone = true := by
  intro stream
  induction stream with
  | nil =>
    intro st h1 h2 n hn
    simp only [anonLoop] at hn
    exact absurd hn (anonEpilogue_not_aborted _ _ _)
  | cons p rest ih =>
    obtain ⟨rec, ts⟩ := p
    intro st h1 h2 n hn
    simp only [anonLoop] at hn ⊢
    by_cases hlim : limitReached logLimit st.count
    · rw [if_pos hlim] at hn ⊢
      exact absurd hn (anonEpilogue_not_aborted _ _ _)
    · rw [if_neg hlim] at hn ⊢
      by_cases hfull : bufSize ≤ (st.buffer ++ [rec]).length
      · rw [if_pos hfull] at hn ⊢
        by_cases hj : jobOk (st.buffer ++ [rec])
        · rw [if_pos hj] at hn ⊢
          refine ih _ ?_ ?_ n hn
          · simp [lastCommittedEnd, List.getLast?_concat]
          · simp [committedTotal, h2]
        · rw [if_neg hj] at hn ⊢
          have hn2 : Outcome.aborted st.count = Outcome.aborted n := hn
          injection hn2 with h3
          subst h3
          exact ⟨h1, h2, rfl⟩
      · rw [if_neg hfull] at hn ⊢
        refine ih _ ?_ ?_ n hn
        · exact h1
        · exact h2

theorem anonLoop_raisedFinal_spec (jobOk : List DualRecord → Bool) (bufSize : Nat)
    (logLimit : Option Nat) :
    ∀ (stream : List (DualRecord × Int)) (st : DriverSt),
      (anonLoop jobOk bufSize logLimit stream st).outcome = Outcome.raisedFinal →
      (anonLoop jobOk bufSize logLimit stream st).resetDone = false
      ∧ ∃ buf, buf ≠ [] ∧ jobOk buf = false := by
  intro stream
  induction stream with
  | nil =>
    intro st h
    simp only [anonLoop] at h ⊢
    exact ⟨anonEpilogue_resetDone _ _, anonEpilogue_raisedFinal _ _ h⟩
  | cons p rest ih =>
    obtain ⟨rec, ts⟩ := p
    intro st h
    simp only [anonLoop] at h ⊢
    by_cases hlim : limitReached logLimit st.count
    · rw [if_pos hlim] at h ⊢
      exact ⟨anonEpilogue_resetDone _ _, anonEpilogue_raisedFinal _ _ h⟩
    · rw [if_neg hlim] at h ⊢
      by_cases hfull : bufSize ≤ (st.buffer ++ [rec]).length
      · rw [if_pos hfull] at h ⊢
        by_cases hj : jobOk (st.buffer ++ [rec])
        · rw [if_pos hj] at h ⊢
          exact ih _ h
        · rw [if_neg hj] at h ⊢
          exact absurd (show Outcome.aborted st.count = Outcome.raisedFinal from h) (by simp)
      · rw [if_neg hfull] at h ⊢
        exact ih _ h

theorem anonLoop_count_bound (jobOk : List DualRecord → Bool) (bufSize lim : Nat)
    (hb : 1 ≤ bufSize) :
    ∀ (stream : List (DualRecord × Int)) (st : DriverSt),
      st.count + st.buffer.length < lim + bufSize →
      st.buffer.length < bufSize →
      ∀ n, ((anonLoop jobOk bufSize (some lim) stream st).outcome = Outcome.finished n
            ∨ (anonLoop jobOk bufSize (some lim) stream st).outcome = Outcome.aborted n) →
        n < lim + bufSize := by
  intro stream
  induction stream with
  | nil =>
    intro st h1 h2 n hn
    simp only [anonLoop] at hn
    have := anonEpilogue_count_le _ _ _ hn
    omega
  | cons p rest ih =>
    obtain ⟨rec, ts⟩ := p
    intro st h1 h2 n hn
    simp only [anonLoop] at hn
    by_cases hlim : limitReached (some lim) st.count
    · rw [if_pos hlim] at hn
      have h3 : n ≤ st.count + st.buffer.length :=
        anonEpilogue_count_le jobOk { st with cursor := ts } n hn
      omega
    · have hcnt : ¬ lim ≤ st.count := by simpa [limitReached] using hlim
      rw [if_neg hlim] at hn
      by_cases hfull : bufSize ≤ (st.buffer ++ [rec]).length
      · rw [if_pos hfull] at hn
        by_cases hj : jobOk (st.buffer ++ [rec])
        · rw [if_pos hj] at hn
          refine ih _ ?_ ?_ n hn
          · show st.count + (st.buffer ++ [rec]).length + List.length ([] : List DualRecord)
                < lim + bufSize
            simp only [List.length_append, List.length_cons, List.length_nil]
            omega
          · show List.length ([] : List DualRecord) < bufSize
            simpa using hb
        · rw [if_neg hj] at hn
          rcases hn with hn | hn
          · exact absurd (show Outcome.aborted st.count = Outcome.finished n from hn) (by simp)
          · have hn2 : Outcome.aborted st.count = Outcome.aborted n := hn
            injection hn2 with h3
            omega
      · rw [if_neg hfull] at hn
        refine ih _ ?_ ?_ n hn
        · show st.count + (st.buffer ++ [rec]).length < lim + bufSize
          simp only [List.length_append, List.length_cons, List.length_nil] at hfull ⊢
          omega
        · show (st.buffer ++ [rec]).length < bufSize
          simp only [List.length_append, List.length_cons, List.length_nil] at hfull ⊢
          omega

/-! ### Mask-compilation lemmas -/

theorem setAdd_mem (l : List String) (x f : String) : f ∈ setAdd l x ↔ f ∈ l ∨ f = x := by
  rw [setAdd]
  split
  · rename_i hx
    constructor
    · exact Or.inl
    · rintro (h | rfl)
      · exact h
      · exact hx
  · simp

theorem masks_foldl_client (fields : List (String × Option String)) :
    ∀ (m : Masks) (f : String),
      f ∈ (fields.foldl maskStep m).client ↔ f ∈ m.client ∨ (f, some "producer") ∈ fields := by
  induction fields with
  | nil => intro m f; simp
  | cons p rest ih =>
    intro m f
    rw [List.foldl_cons, ih]
    obtain ⟨name, ag⟩ := p
    cases ag with
    | none => simp [maskStep]
    | some a =>
      by_cases ha : a = "producer"
      · subst ha
        simp [maskStep, setAdd_mem, Prod.ext_iff]
        tauto
      · simp only [maskStep, if_neg ha, List.mem_cons, Prod.mk.injEq, Option.some.injEq]
        constructor
        · intro h
          rcases h with h | h
          · exact Or.inl h
          · exact Or.inr (Or.inr h)
        · rintro (h | ⟨h1, h2⟩ | h)
          · exact Or.inl h
          · exact absurd h2.symm ha
          · exact Or.inr h

theorem masks_foldl_producer (fields : List (String × Option String)) :
    ∀ (m : Masks) (f : String),
      f ∈ (fields.foldl maskStep m).producer
        ↔ f ∈ m.producer ∨ ∃ a, (f, some a) ∈ fields ∧ a ≠ "producer" := by
  induction fields with
  | nil => intro m f; simp
  | cons p rest ih =>
    intro m f
    rw [List.foldl_cons, ih]
    obtain ⟨name, ag⟩ := p
    cases ag with
    | none =>
      simp only [maskStep, List.mem_cons, Prod.mk.injEq]
      constructor
      · rintro (h | ⟨a, ha, hne⟩)
        · exact Or.inl h
        · exact Or.inr ⟨a, Or.inr ha, hne⟩
      · rintro (h | ⟨a, ha | ha, hne⟩)
        · exact Or.inl h
        · exact absurd ha.2 (by simp)
        · exact Or.inr ⟨a, ha, hne⟩
    | some a =>
      by_cases ha : a = "producer"
      · subst ha
        simp only [maskStep, if_pos rfl, List.mem_cons, Prod.mk.injEq, Option.some.injEq]
        constructor
        · rintro (h | ⟨b, hb, hne⟩)
          · exact Or.inl h
          · exact Or.inr ⟨b, Or.inr hb, hne⟩
        · rintro (h | ⟨b, ⟨h1, h2⟩ | hb, hne⟩)
          · exact Or.inl h
          · exact absurd h2 hne
          · exact Or.inr ⟨b, hb, hne⟩
      · simp only [maskStep, if_neg ha, setAdd_mem, List.mem_cons, Prod.mk.injEq,
          Option.some.injEq]
        constructor
        · rintro ((h | rfl) | ⟨b, hb, hne⟩)
          · exact Or.inl h
          · exact Or.inr ⟨a, Or.inl ⟨rfl, rfl⟩, ha⟩
          · exact Or.inr ⟨b, Or.inr hb, hne⟩
        · rintro (h | ⟨b, ⟨h1, h2⟩ | hb, hne⟩)
          · exact Or.inl (Or.inl h)
          · exact Or.inl (Or.inr h1)
          · exact Or.inr ⟨b, hb, hne⟩

/-! ### Batch-processing thread lemmas -/

theorem processThread_snd (cfg : JobConfig) :
    ∀ (duals : List DualRecord) (s : Option (List Record) × List DualRecord),
      (duals.foldl (processThreadStep cfg) s).2 = s.2 ++ duals := by
  intro duals
  induction duals with
  | nil => intro s; simp
  | cons d ds ih =>
    intro s
    rw [List.foldl_cons, ih]
    simp [processThreadStep]

theorem processThread_fst (cfg : JobConfig) :
    ∀ (duals : List DualRecord) (s : Option (List Record) × List DualRecord),
      (duals.foldl (processThreadStep cfg) s).1
        = duals.foldl
            (fun acc dual => acc.bind fun outs => Option.map (fun o => outs ++ o) (processDual cfg dual))
            s.1 := by
  intro duals
  induction duals with
  | nil => intro s; rfl
  | cons d ds ih =>
    intro s
    rw [List.foldl_cons, List.foldl_cons, ih]
    rfl

/-! ### Translation-compilation lemmas -/

theorem parseTransLine_badSplit (ft : TransDict) (line : String)
    (h : (arrowSplit line).length ≠ 2) : parseTransLine ft line = none := by
  unfold parseTransLine
  rcases hs : arrowSplit line with _ | ⟨a, _ | ⟨b, _ | ⟨c, rest⟩⟩⟩
  · rfl
  · rfl
  · exact absurd (by rw [hs]; rfl) h
  · rfl

theorem parse_poison (line : String) (hbad : ∀ ft, parseTransLine ft line = none) :
    ∀ (lines : List String) (ft0 : TransDict),
      line ∈ lines → List.foldlM parseTransLine ft0 lines = none := by
  intro lines
  induction lines with
  | nil => intro ft0 h; simp at h
  | cons l ls ih =>
    intro ft0 hmem
    rw [List.foldlM_cons]
    rcases List.mem_cons.mp hmem with rfl | hmem2
    · rw [hbad ft0]; rfl
    · rcases hl : parseTransLine ft0 l with _ | ft1
      · rfl
      · simpa [hl] using ih ft1 hmem2

theorem parseTransLine_threeSeg (ft : TransDict) (line orig newName : String)
    (h1 : arrowSplit line = [orig, newName]) (h2 : 3 ≤ (dotSplit orig).length) :
    parseTransLine ft line = some ft := by
  rcases hd : dotSplit orig with _ | ⟨a, _ | ⟨b, _ | ⟨c, rest⟩⟩⟩
  · rw [hd] at h2; simp at h2
  · rw [hd] at h2; simp at h2
  · rw [hd] at h2; simp at h2
  · simp only [parseTransLine, h1, hd]

/-! ### Claim theorems -/

/-- Claim C3: a single-agent record is hidden iff at least one hiding rule
has every (field, pattern) condition satisfied, i.e. the field is present
in the record and the pattern matches the string form of its value; a rule
containing a condition whose field is missing is never satisfied; a hidden
record is dropped from the output without error. -/
theorem hiding_disjunction_of_conjunctions (record : Record) (rules : List (List Condition)) :
    (should_be_hidden rules record = true ↔
      ∃ conds ∈ rules, ∀ c ∈ conds, ∃ v, alistLookup record c.1 = some v ∧ c.2 v.pyStr = true)
    ∧ (∀ conds ∈ rules, ∀ c ∈ conds, alistLookup record c.1 = none →
        record_matches_conditions record conds = false)
    ∧ (∀ cfg : JobConfig, should_be_hidden cfg.hidingRules record = true →
        processRecords cfg [record] = []) := by
  refine ⟨?_, ?_, ?_⟩
  · rw [should_be_hidden, List.any_eq_true]
    constructor
    · rintro ⟨conds, hc, hm⟩
      exact ⟨conds, hc, (record_matches_iff record conds).mp hm⟩
    · rintro ⟨conds, hc, hm⟩
      exact ⟨conds, hc, (record_matches_iff record conds).mpr hm⟩
  · intro conds _ c hc hnone
    cases hmc : record_matches_conditions record conds with
    | false => rfl
    | true =>
      exfalso
      obtain ⟨v, hv, _⟩ := (record_matches_iff record conds).mp hmc c hc
      rw [hnone] at hv
      exact Option.noConfusion hv
  · intro cfg hh
    simp [processRecords, hh]

/-- Witness for C3 at a concrete record and rule set: the record misses
the field of the condition, so the rule is not satisfied. -/
theorem hiding_disjunction_of_conjunctions_holds :
    record_matches_conditions wRec wConds = false :=
  (hiding_disjunction_of_conjunctions wRec [wConds]).2.1 wConds
    (List.mem_singleton.mpr rfl) ("f", fun s => s == "x")
    (List.mem_singleton.mpr rfl) (by decide)

/-- Claim C4: for a non-hidden record the job applies substitution (then
the transformer chain) and keeps the record; substitution rules apply in
declaration order, each matching rule overwriting its listed fields with
its configured values and each non-matching rule leaving the record
unchanged; a later matching rule that targets a field determines its
final value. -/
theorem substitution_order_later_wins :
    (∀ (cfg : JobConfig) (r : Record), should_be_hidden cfg.hidingRules r = false →
       processRecords cfg [r]
         = [applyTransformerChain cfg.transformers (substitute cfg.substitutionRules r)])
    ∧ (∀ (r : Record) (xs ys : List SubstitutionRule),
       substitute (xs ++ ys) r = substitute ys (substitute xs r))
    ∧ (∀ (r : Record) (rule : SubstitutionRule),
       record_matches_conditions r rule.conditions = true →
         substitute [rule] r = applySubstitutes rule.substitutes r)
    ∧ (∀ (r : Record) (rule : SubstitutionRule),
       record_matches_conditions r rule.conditions = false →
         substitute [rule] r = r)
    ∧ (∀ (r : Record) (rules : List SubstitutionRule) (rule : SubstitutionRule)
         (f : String) (v : Value),
       record_matches_conditions (substitute rules r) rule.conditions = true →
       lastValueFor rule.substitutes f = some v →
         alistLookup (substitute (rules ++ [rule]) r) f = some v) := by
  have happ : ∀ (r : Record) (xs ys : List SubstitutionRule),
      substitute (xs ++ ys) r = substitute ys (substitute xs r) := by
    intro r xs ys
    rw [substitute, substitute, substitute, List.foldl_append]
  have hone : ∀ (r : Record) (rule : SubstitutionRule),
      record_matches_conditions r rule.conditions = true →
        substitute [rule] r = applySubstitutes rule.substitutes r := by
    intro r rule h
    simp [substitute, h]
  refine ⟨?_, happ, hone, ?_, ?_⟩
  · intro cfg r h
    simp [processRecords, h]
  · intro r rule h
    simp [substitute, h]
  · intro r rules rule f v hm hl
    rw [happ, hone _ _ hm]
    exact applySubstitutes_lookup_last _ _ _ _ hl

/-- Witness for C4: two unconditional rules target field f; after applying
both in order, f holds the later rule's value. -/
theorem substitution_order_later_wins_holds :
    alistLookup (substitute ([wRule1] ++ [wRule2]) wRec) "f" = some (Value.str "second") :=
  substitution_order_later_wins.2.2.2.2 wRec [wRule1] wRule2 "f" (Value.str "second")
    rfl (by decide)

/-- Claim C5: every field in an agent's mask set appears with value null
in every record the splitter emits for that agent, also when the field was
absent from the source record. -/
theorem mask_fields_always_null (ft : TransDict) (masks : Masks) (agent : Agent)
    (dual : DualRecord) (rec : Record) (f : String)
    (h : get_agent_record ft masks agent dual = some rec)
    (hf : f ∈ masksGet masks agent) :
    alistLookup rec f = some Value.null := by
  unfold get_agent_record at h
  split at h
  · split at h
    · split at h
      · injection h with h2
        subst h2
        exact applyMasks_lookup_mem _ _ _ hf
      · exact Option.noConfusion h
    · exact Option.noConfusion h
  · exact Option.noConfusion h

/-- Witness for C5: masking fieldB for the client of the spec example dual
record forces fieldB = null in the emitted client record although the
source record has no fieldB. -/
theorem mask_fields_always_null_holds :
    alistLookup [("fieldA", Value.str "1"), ("ts", Value.int 100), ("fieldB", Value.null)]
        "fieldB" = some Value.null :=
  mask_fields_always_null exampleFT ⟨["fieldB"], []⟩ Agent.client exampleDual
    [("fieldA", Value.str "1"), ("ts", Value.int 100), ("fieldB", Value.null)]
    "fieldB" (by decide) (by decide)

/-- Claim C6: splitting a dual record emits zero, one or two records, one
per agent key present — the client record first, then the producer record,
each built by get_agent_record (agent keys through the agent table, shared
fields through the shared table) — and on the spec scenario it yields
fieldA=1, ts=100 followed by fieldA=2, ts=100. -/
theorem split_emits_client_then_producer :
    (∀ (ft : TransDict) (masks : Masks) (dual : DualRecord) (recs : List Record),
       get_records ft masks dual = some recs →
         ∃ cs ps, recs = cs ++ ps
           ∧ recs.length ≤ 2
           ∧ (dual.client.isSome = true →
                ∃ rc, get_agent_record ft masks Agent.client dual = some rc ∧ cs = [rc])
           ∧ (dual.client = none → cs = [])
           ∧ (dual.producer.isSome = true →
                ∃ rp, get_agent_record ft masks Agent.producer dual = some rp ∧ ps = [rp])
           ∧ (dual.producer = none → ps = []))
    ∧ get_records exampleFT ⟨[], []⟩ exampleDual
        = some [[("fieldA", Value.str "1"), ("ts", Value.int 100)],
                [("fieldA", Value.str "2"), ("ts", Value.int 100)]] := by
  constructor
  · intro ft masks dual recs h
    cases hc : dual.client with
    | none =>
      cases hp : dual.producer with
      | none =>
        rw [get_records, hc, hp] at h
        simp at h
        subst h
        refine ⟨[], [], by simp, by simp, ?_, fun _ => rfl, ?_, fun _ => rfl⟩
        · intro habs; simp at habs
        · intro habs; simp at habs
      | some subp =>
        rw [get_records, hc, hp] at h
        simp at h
        obtain ⟨rp, hrp, hrecs⟩ := h
        subst hrecs
        refine ⟨[], [rp], by simp, by simp, ?_, fun _ => rfl,
          fun _ => ⟨rp, hrp, rfl⟩, ?_⟩
        · intro habs; simp at habs
        · intro habs; simp at habs
    | some subc =>
      cases hp : dual.producer with
      | none =>
        rw [get_records, hc, hp] at h
        simp at h
        obtain ⟨rc, hrc, hrecs⟩ := h
        subst hrecs
        refine ⟨[rc], [], by simp, by simp,
          fun _ => ⟨rc, hrc, rfl⟩, ?_, ?_, fun _ => rfl⟩
        · intro habs; simp at habs
        · intro habs; simp at habs
      | some subp =>
        rw [get_records, hc, hp] at h
        simp [Option.bind_eq_some] at h
        obtain ⟨rc, hrc, rp, hrp, hrecs⟩ := h
        subst hrecs
        refine ⟨[rc], [rp], by simp, by simp,
          fun _ => ⟨rc, hrc, rfl⟩, ?_, fun _ => ⟨rp, hrp, rfl⟩, ?_⟩
        · intro habs; simp at habs
        · intro habs; simp at habs
  · decide

/-- Witness for C6 at the spec scenario: both agents present, so the run
decomposes into the client record followed by the producer record. -/
theorem split_emits_client_then_producer_holds :
    ∃ cs ps,
      [[("fieldA", Value.str "1"), ("ts", Value.int 100)],
       [("fieldA", Value.str "2"), ("ts", Value.int 100)]] = cs ++ ps
      ∧ ([[("fieldA", Value.str "1"), ("ts", Value.int 100)],
          [("fieldA", Value.str "2"), ("ts", Value.int 100)]] : List Record).length ≤ 2
      ∧ (exampleDual.client.isSome = true →
           ∃ rc, get_agent_record exampleFT ⟨[], []⟩ Agent.client exampleDual = some rc
             ∧ cs = [rc])
      ∧ (exampleDual.client = none → cs = [])
      ∧ (exampleDual.producer.isSome = true →
           ∃ rp, get_agent_record exampleFT ⟨[], []⟩ Agent.producer exampleDual = some rp
             ∧ ps = [rp])
      ∧ (exampleDual.producer = none → ps = []) :=
  split_emits_client_then_producer.1 exampleFT ⟨[], []⟩ exampleDual
    [[("fieldA", Value.str "1"), ("ts", Value.int 100)],
     [("fieldA", Value.str "2"), ("ts", Value.int 100)]] (by decide)

/-- Claim C7 (amended): compiling the field translations fails whenever a
line does not split into exactly one "original -> new" pair; an entry
whose original name has more than two dot-separated segments does not
fail — it is silently ignored, leaving the dict unchanged. -/
theorem translation_compile_failure_modes :
    (∀ (lines : List String) (line : String), line ∈ lines →
       (arrowSplit line).length ≠ 2 → parseTranslations lines = none)
    ∧ (∀ (ft : TransDict) (line orig newName : String),
       arrowSplit line = [orig, newName] → 3 ≤ (dotSplit orig).length →
       parseTransLine ft line = some ft) := by
  constructor
  · intro lines line hmem hlen
    exact parse_poison line (fun ft => parseTransLine_badSplit ft line hlen)
      lines initTranslations hmem
  · intro ft line orig newName h1 h2
    exact parseTransLine_threeSeg ft line orig newName h1 h2

/-- Witness for C7: the line "abc" has no arrow and fails the whole parse;
the three-segment entry a.b.c -> x is accepted and ignored. -/
theorem translation_compile_failure_modes_holds :
    parseTranslations ["abc"] = none
    ∧ parseTransLine initTranslations "a.b.c -> x" = some initTranslations :=
  ⟨translation_compile_failure_modes.1 ["abc"] "abc" (List.mem_singleton.mpr rfl) (by decide),
   translation_compile_failure_modes.2 initTranslations "a.b.c -> x" "a.b.c" "x"
     (by decide) (by decide)⟩

/-- Claim C7 counterexample: an original name with three dot-separated
segments does not make compilation fail: the parse succeeds and returns
the initial dict unchanged. -/
theorem translation_three_segment_cx :
    parseTranslations ["a.b.c -> x"] = some initTranslations
    ∧ parseTranslations ["a.b.c -> x"] ≠ none := by
  exact ⟨by decide, by decide⟩

/-- Claim C9: batch processing is pure and non-destructive: the threaded
run hands back its input dual-record list unchanged, its output is exactly
processBatch, and re-running on the returned input yields the identical
output list (order included). -/
theorem batch_processing_idempotent (cfg : JobConfig) (duals : List DualRecord) :
    (processBatchThreaded cfg duals).2 = duals
    ∧ (processBatchThreaded cfg duals).1 = processBatch cfg duals
    ∧ (processBatchThreaded cfg (processBatchThreaded cfg duals).2).1
        = (processBatchThreaded cfg duals).1 := by
  have h2 : (processBatchThreaded cfg duals).2 = duals := by
    rw [processBatchThreaded, processThread_snd]
    simp
  have h1 : (processBatchThreaded cfg duals).1 = processBatch cfg duals := by
    rw [processBatchThreaded, processThread_fst]
    rfl
  exact ⟨h2, h1, by rw [h2]⟩

/-- Claim C10: mask compilation inverts the declared agent: a field is in
the client mask iff its entry declares agent "producer"; it is in the
producer mask iff its entry declares any other agent value (including
"client"); fields that never carry an agent key end up in neither mask. -/
theorem mask_agent_inversion (fields : List (String × Option String)) (f : String) :
    (f ∈ (get_field_value_masks fields).client ↔ (f, some "producer") ∈ fields)
    ∧ (f ∈ (get_field_value_masks fields).producer
        ↔ ∃ a, (f, some a) ∈ fields ∧ a ≠ "producer")
    ∧ ((∀ a, (f, some a) ∉ fields) →
        f ∉ (get_field_value_masks fields).client
        ∧ f ∉ (get_field_value_masks fields).producer) := by
  have hc := masks_foldl_client fields ⟨[], []⟩ f
  have hp := masks_foldl_producer fields ⟨[], []⟩ f
  rw [get_field_value_masks]
  refine ⟨?_, ?_, ?_⟩
  · rw [hc]; simp
  · rw [hp]; simp
  · intro hnone
    constructor
    · rw [hc]
      simp only [Masks.client, List.not_mem_nil, false_or]
      exact hnone "producer"
    · rw [hp]
      simp only [Masks.producer, List.not_mem_nil, false_or]
      rintro ⟨a, ha, hne⟩
      exact hnone a ha

/-- Witness for C10: the field "plain" carries no agent key in a concrete
field-data list and is in neither compiled mask set. -/
theorem mask_agent_inversion_holds :
    "plain" ∉ (get_field_value_masks
        [("secretC", some "producer"), ("secretP", some "client"), ("plain", none)]).client
    ∧ "plain" ∉ (get_field_value_masks
        [("secretC", some "producer"), ("secretP", some "client"), ("plain", none)]).producer :=
  (mask_agent_inversion
      [("secretC", some "producer"), ("secretP", some "client"), ("plain", none)] "plain").2.2
    (by intro a; simp)

/-- Claim C1 (amended): whenever a full-size batch fails inside the batch
loop, anonymize resets the checkpoint to the end cursor of the last
previously committed batch (the initial checkpoint when none was
committed) and returns exactly the number of records committed by the
earlier batches of that run. -/
theorem full_batch_failure_rolls_back (jobOk : List DualRecord → Bool) (bufSize : Nat)
    (logLimit : Option Nat) (init : Int) (stream : List (DualRecord × Int)) (n : Nat)
    (h : (anonymize jobOk bufSize logLimit init stream).outcome = Outcome.aborted n) :
    (anonymize jobOk bufSize logLimit init stream).checkpoint
        = lastCommittedEnd init (anonymize jobOk bufSize logLimit init stream).committed
    ∧ n = committedTotal (anonymize jobOk bufSize logLimit init stream).committed
    ∧ (anonymize jobOk bufSize logLimit init stream).resetDone = true :=
  anonLoop_aborted_spec jobOk bufSize logLimit init stream _ rfl rfl n h

/-- Witness for C1: four records with buffer size 2; the first batch
commits, the second batch fails, so the run aborts with count 2 and the
checkpoint reset to the first batch's end cursor. -/
theorem full_batch_failure_rolls_back_holds :
    (anonymize (jobRejecting (mkDual 3)) 2 none 0
        [(mkDual 1, 1), (mkDual 2, 2), (mkDual 3, 3), (mkDual 4, 4)]).checkpoint
      = lastCommittedEnd 0
          (anonymize (jobRejecting (mkDual 3)) 2 none 0
            [(mkDual 1, 1), (mkDual 2, 2), (mkDual 3, 3), (mkDual 4, 4)]).committed
    ∧ 2 = committedTotal
          (anonymize (jobRejecting (mkDual 3)) 2 none 0
            [(mkDual 1, 1), (mkDual 2, 2), (mkDual 3, 3), (mkDual 4, 4)]).committed
    ∧ (anonymize (jobRejecting (mkDual 3)) 2 none 0
        [(mkDual 1, 1), (mkDual 2, 2), (mkDual 3, 3), (mkDual 4, 4)]).resetDone = true :=
  full_batch_failure_rolls_back (jobRejecting (mkDual 3)) 2 none 0
    [(mkDual 1, 1), (mkDual 2, 2), (mkDual 3, 3), (mkDual 4, 4)] 2 (by decide)

/-- Claim C1 counterexample: a batch that raises during processing — here
the final undersized batch of a one-record stream — for which the claim
fails: the checkpoint is not reset to the previously committed value 0
(the cursor remains 5) and no count is returned: the run ends with the
exception propagating. -/
theorem final_batch_failure_cx :
    anonymize (fun _ => false) 2 none 0 [(mkDual 1, 5)]
      = { outcome := Outcome.raisedFinal, checkpoint := 5, committed := [],
          resetDone := false }
    ∧ (anonymize (fun _ => false) 2 none 0 [(mkDual 1, 5)]).checkpoint
        ≠ lastCommittedEnd 0 (anonymize (fun _ => false) 2 none 0 [(mkDual 1, 5)]).committed :=
  ⟨by decide, by decide⟩

/-- Claim C2 (amended): the final undersized batch is run through the same
job call as full batches, but its failure handling differs: when it
raises, the exception propagates out of anonymize — the checkpoint is not
reset (update_last_processed_timestamp is never called) and no committed
count is returned; the raising batch is a non-empty batch rejected by the
job. -/
theorem final_batch_failure_propagates (jobOk : List DualRecord → Bool) (bufSize : Nat)
    (logLimit : Option Nat) (init : Int) (stream : List (DualRecord × Int))
    (h : (anonymize jobOk bufSize logLimit init stream).outcome = Outcome.raisedFinal) :
    (anonymize jobOk bufSize logLimit init stream).resetDone = false
    ∧ ∃ buf, buf ≠ [] ∧ jobOk buf = false :=
  anonLoop_raisedFinal_spec jobOk bufSize logLimit stream _ h

/-- Witness for C2: the spec scenario of three records with buffer size 2
where the job fails on the final one-record batch. -/
theorem final_batch_failure_propagates_holds :
    (anonymize (jobRejecting (mkDual 3)) 2 none 0
        [(mkDual 1, 1), (mkDual 2, 2), (mkDual 3, 3)]).resetDone = false
    ∧ ∃ buf, buf ≠ [] ∧ jobRejecting (mkDual 3) buf = false :=
  final_batch_failure_propagates (jobRejecting (mkDual 3)) 2 none 0
    [(mkDual 1, 1), (mkDual 2, 2), (mkDual 3, 3)] (by decide)

/-- Claim C2 counterexample: three records, buffer size 2, the job raises
on the final one-record batch: the error is not handled by the driver,
the checkpoint stays at the reader cursor 3 instead of being reset to the
last committed value 2, and the run returns no count. -/
theorem final_batch_claim_cx :
    anonymize (jobRejecting (mkDual 3)) 2 none 0
        [(mkDual 1, 1), (mkDual 2, 2), (mkDual 3, 3)]
      = { outcome := Outcome.raisedFinal, checkpoint := 3, committed := [(2, 2)],
          resetDone := false }
    ∧ (3 : Int) ≠ lastCommittedEnd 0 [(2, 2)] :=
  ⟨by decide, by decide⟩

/-- Claim C8 (amended): with a record-count limit, the limit is checked
per pulled record before it is buffered, so no batch starts once the
committed count has reached the limit; but the count advances a whole
batch at a time, so the returned count may exceed the limit by up to
bufferSize - 1: it is always strictly below limit + bufferSize. -/
theorem record_limit_bound (jobOk : List DualRecord → Bool) (bufSize lim : Nat) (init : Int)
    (stream : List (DualRecord × Int)) (n : Nat) (hb : 1 ≤ bufSize)
    (h : (anonymize jobOk bufSize (some lim) init stream).outcome = Outcome.finished n
         ∨ (anonymize jobOk bufSize (some lim) init stream).outcome = Outcome.aborted n) :
    n < lim + bufSize := by
  refine anonLoop_count_bound jobOk bufSize lim hb stream _ ?_ ?_ n h
  · show (0 : Nat) + List.length ([] : List DualRecord) < lim + bufSize
    simp
    omega
  · show List.length ([] : List DualRecord) < bufSize
    simpa using hb

/-- Witness for C8: two records, buffer size 2, limit 1: the committed
count 2 is below limit + bufferSize = 3. -/
theorem record_limit_bound_holds :
    (1 : Nat) ≤ 2 ∧ 2 < 1 + 2 :=
  ⟨by decide,
   record_limit_bound (fun _ => true) 2 1 0 [(mkDual 1, 1), (mkDual 2, 2)] 2
     (by decide) (Or.inl (by decide))⟩

/-- Claim C8 counterexample: with limit 1 and buffer size 2 the run
commits and returns 2 records — the returned committed count exceeds the
limit. -/
theorem record_limit_cx :
    anonymize (fun _ => true) 2 (some 1) 0 [(mkDual 1, 1), (mkDual 2, 2)]
      = { outcome := Outcome.finished 2, checkpoint := 2, committed := [(2, 2)],
          resetDone := false }
    ∧ 1 < 2 :=
  ⟨by decide, by decide⟩
